import Mathlib

/-!
Verification development for the loglyzer log analysis tool
(src/loglyzer/src/main.rs).

The Rust program is shallowly embedded: each relevant Rust function becomes
a Lean definition translated from the source.  A chrono DateTime with a
FixedOffset is represented by its UTC timestamp in whole seconds (an Int);
chrono compares such values by instant, which this representation preserves.
Rust u16 values are represented as Nat with an explicit bound where the
source can overflow.
-/

set_option maxRecDepth 8000

namespace Loglyzer

/-- Mirror of struct LogEntry in main.rs: the raw line plus the optional
extracted fields ip, url, status (u16) and time (DateTime with FixedOffset,
represented as UTC epoch seconds). -/
structure LogEntry where
  raw : String
  ip : Option String
  url : Option String
  status : Option Nat
  time : Option Int
deriving DecidableEq, Repr

/-- Named capture groups produced by one successful regex match: the text of
the groups ip, url, status and time when each participated in the match. -/
structure Caps where
  ip : Option String
  url : Option String
  status : Option String
  time : Option String
deriving DecidableEq, Repr

/-! ## Model of the chrono date parsing used by the program

The program calls DateTime::parse_from_str (through parse_time and directly
in main for the since and until bounds).  We model the strftime format
string as a list of items covering exactly the two formats the program
uses: the default date format and the fixed bound format. -/

/-- One item of a chrono strftime format string.  lit is a literal
character that must match exactly; space is the chrono whitespace item,
which skips any run of whitespace in the input (possibly empty); the
numeric items read a bounded greedy run of ASCII digits; monAbbr is a
three letter case insensitive English month name; tzOffset is a numeric
UTC offset such as +0000 (sign, two hour digits, optional colon, two
minute digits). -/
inductive FmtItem where
  | lit (c : Char)
  | space
  | year
  | month2
  | day2
  | hour2
  | min2
  | sec2
  | monAbbr
  | tzOffset
deriving DecidableEq, Repr

/-- Mirror of chrono Parsed: the fields accumulated while scanning the
input under a format.  Every field starts absent; an item that matches
records its field. -/
structure ChronoParsed where
  year : Option Int
  month : Option Nat
  day : Option Nat
  hour : Option Nat
  minute : Option Nat
  second : Option Nat
  offset : Option Int
deriving DecidableEq, Repr

def ChronoParsed.empty : ChronoParsed :=
  ⟨none, none, none, none, none, none, none⟩

def natOfDigits (ds : List Char) : Nat :=
  ds.foldl (fun a c => a * 10 + (c.toNat - 48)) 0

/-- Greedy bounded run of ASCII digits, as chrono reads a numeric field:
at least one digit, at most maxDigits digits. -/
def parseNumMax (maxDigits : Nat) (s : List Char) : Option (Nat × List Char) :=
  let ds := (s.takeWhile Char.isDigit).take maxDigits
  if ds.isEmpty then none
  else some (natOfDigits ds, s.drop ds.length)

/-- Case insensitive three letter English month abbreviation, as chrono
reads a %b item. -/
def monthNum (a b c : Char) : Option Nat :=
  let w := String.mk [a.toLower, b.toLower, c.toLower]
  if w = "jan" then some 1
  else if w = "feb" then some 2
  else if w = "mar" then some 3
  else if w = "apr" then some 4
  else if w = "may" then some 5
  else if w = "jun" then some 6
  else if w = "jul" then some 7
  else if w = "aug" then some 8
  else if w = "sep" then some 9
  else if w = "oct" then some 10
  else if w = "nov" then some 11
  else if w = "dec" then some 12
  else none

/-- Numeric UTC offset, as chrono reads a %z item: a sign, two hour
digits, an optional colon, two minute digits; result in seconds east of
UTC. -/
def parseTz (s : List Char) : Option (Int × List Char) :=
  match s with
  | sgn :: h1 :: h2 :: rest =>
    if (sgn = '+' ∨ sgn = '-') ∧ h1.isDigit ∧ h2.isDigit then
      let hh := natOfDigits [h1, h2]
      let rest2 := match rest with
        | ':' :: r => r
        | r => r
      match rest2 with
      | m1 :: m2 :: rest3 =>
        if m1.isDigit ∧ m2.isDigit then
          let mm := natOfDigits [m1, m2]
          let mag : Int := ((hh * 3600 + mm * 60 : Nat) : Int)
          some (if sgn = '-' then -mag else mag, rest3)
        else none
      | _ => none
    else none
  | _ => none

def isWsChar (c : Char) : Bool :=
  c == ' ' || c == '\t' || c == '\n' || c == '\r' || c == '\x0b' || c == '\x0c'

/-- Run one format item against the input, extending the accumulated
Parsed fields. -/
def runItem (it : FmtItem) (p : ChronoParsed) (s : List Char) :
    Option (ChronoParsed × List Char) :=
  match it with
  | .lit c =>
    match s with
    | c2 :: rest => if c2 = c then some (p, rest) else none
    | [] => none
  | .space => some (p, s.dropWhile isWsChar)
  | .year => (parseNumMax 4 s).map (fun pr => ({ p with year := some (pr.1 : Int) }, pr.2))
  | .month2 => (parseNumMax 2 s).map (fun pr => ({ p with month := some pr.1 }, pr.2))
  | .day2 => (parseNumMax 2 s).map (fun pr => ({ p with day := some pr.1 }, pr.2))
  | .hour2 => (parseNumMax 2 s).map (fun pr => ({ p with hour := some pr.1 }, pr.2))
  | .min2 => (parseNumMax 2 s).map (fun pr => ({ p with minute := some pr.1 }, pr.2))
  | .sec2 => (parseNumMax 2 s).map (fun pr => ({ p with second := some pr.1 }, pr.2))
  | .monAbbr =>
    match s with
    | a :: b :: c :: rest => (monthNum a b c).map (fun m => ({ p with month := some m }, rest))
    | _ => none
  | .tzOffset => (parseTz s).map (fun pr => ({ p with offset := some pr.1 }, pr.2))

def runItems (items : List FmtItem) (p : ChronoParsed) (s : List Char) :
    Option (ChronoParsed × List Char) :=
  match items with
  | [] => some (p, s)
  | it :: rest => (runItem it p s).bind (fun pr => runItems rest pr.1 pr.2)

def isLeap (y : Int) : Bool :=
  (y % 4 == 0 && y % 100 != 0) || y % 400 == 0

def daysInMonth (y : Int) (m : Nat) : Nat :=
  if m = 2 then (if isLeap y then 29 else 28)
  else if m = 4 ∨ m = 6 ∨ m = 9 ∨ m = 11 then 30
  else 31

/-- Days from 1970-01-01 to the given civil date (proleptic Gregorian),
the standard era-based algorithm, with floor division on Int. -/
def daysFromCivil (y : Int) (m d : Nat) : Int :=
  let yAdj : Int := if m ≤ 2 then y - 1 else y
  let era : Int := Int.fdiv yAdj 400
  let yoe : Int := yAdj - era * 400
  let mp : Int := if m > 2 then (m : Int) - 3 else (m : Int) + 9
  let doy : Int := Int.fdiv (153 * mp + 2) 5 + (d : Int) - 1
  let doe : Int := yoe * 365 + Int.fdiv yoe 4 - Int.fdiv yoe 100 + doy
  era * 146097 + doe - 719468

/-- Mirror of chrono Parsed::to_datetime, the final step of
DateTime::<FixedOffset>::parse_from_str.  It needs a complete date, an
hour and a minute (a missing second defaults to zero), and crucially it
needs a UTC offset: chrono documents that parse_from_str for a DateTime
with FixedOffset requires a timezone in the input, and fails with a
NotEnough error when the format supplied no offset item.  The result is
the UTC timestamp in seconds. -/
def ChronoParsed.toDateTime (p : ChronoParsed) : Option Int :=
  match p.year, p.month, p.day, p.hour, p.minute, p.offset with
  | some y, some mo, some d, some h, some mi, some off =>
    let s := p.second.getD 0
    if 1 ≤ mo ∧ mo ≤ 12 ∧ 1 ≤ d ∧ d ≤ daysInMonth y mo ∧ h < 24 ∧ mi < 60 ∧ s < 60 then
      some (daysFromCivil y mo d * 86400 + (h : Int) * 3600 + (mi : Int) * 60 + (s : Int) - off)
    else none
  | _, _, _, _, _, _ => none

/-- Model of DateTime::<FixedOffset>::parse_from_str(s, fmt).ok() for the
formats used by the program: the whole input must be consumed by the
format items (trailing input is a TooLong error in chrono), then the
collected fields are resolved by Parsed::to_datetime. -/
def chronoParseFromStr (items : List FmtItem) (s : String) : Option Int :=
  match runItems items ChronoParsed.empty s.data with
  | some (p, []) => p.toDateTime
  | _ => none

/-- The default date format of main.rs, "%d/%b/%Y:%H:%M:%S %z". -/
def apacheFmt : List FmtItem :=
  [.day2, .lit '/', .monAbbr, .lit '/', .year, .lit ':', .hour2, .lit ':',
   .min2, .lit ':', .sec2, .space, .tzOffset]

/-- The fixed bound format "%Y-%m-%d %H:%M" that main.rs uses for the
since and until strings.  Note it has no offset item. -/
def fmtYmdHM : List FmtItem :=
  [.year, .lit '-', .month2, .lit '-', .day2, .space, .hour2, .lit ':', .min2]

/-- Mirror of parse_time in main.rs. -/
def parse_time (s : String) (items : List FmtItem) : Option Int :=
  chronoParseFromStr items s

/-- Rust str::parse::<u16>(): an optional leading plus sign, then one or
more ASCII digits, failing on anything else and on overflow past the u16
range. -/
def parseU16 (s : String) : Option Nat :=
  let ds := match s.data with
    | '+' :: rest => rest
    | l => l
  if ds ≠ [] ∧ ds.all Char.isDigit then
    let n := natOfDigits ds
    if n < 65536 then some n else none
  else none

/-- Mirror of struct RegexParser: a compiled regex, represented by its
captures function (Regex::captures returning the named groups of the
leftmost match, or none when the pattern does not match the line at all),
plus the date format used for the secondary conversion of the time
group. -/
structure RegexParser where
  captures : String → Option Caps
  date_fmt : List FmtItem

/-- Mirror of RegexParser::parse (the LogParser impl in main.rs): no
captures means no match; otherwise each named group is converted, and a
failed secondary conversion (non numeric status, unparsable time) leaves
that field absent while the raw field keeps the whole source line. -/
def RegexParser.parse (p : RegexParser) (line : String) : Option LogEntry :=
  (p.captures line).map (fun caps =>
    { raw := line
      ip := caps.ip
      url := caps.url
      status := caps.status.bind parseU16
      time := caps.time.bind (fun s => parse_time s p.date_fmt) })

/-- Mirror of within_window in main.rs: an entry with no time always
passes; otherwise it fails when below a set lower bound or above a set
upper bound. -/
def within_window (e : LogEntry) (since untl : Option Int) : Bool :=
  match e.time with
  | none => true
  | some t =>
    (match since with
     | some s => decide (¬ t < s)
     | none => true) &&
    (match untl with
     | some u => decide (¬ t > u)
     | none => true)

/-! ## The default extraction pattern

build_regex in main.rs compiles, when no pattern is supplied, the regex

  (?P<ip>\S+) [^ ]+ [^ ]+ \[(?P<time>[^\]]+)\] "(?:GET|POST|PUT|DELETE|PATCH|OPTIONS|HEAD) (?P<url>[^" ]+)[^"]*" (?P<status>\d{3})

We translate it to a deterministic scanner.  Every quantified class in the
pattern is disjoint from the character that must follow it (non whitespace
before a space, non space before a space, non bracket before the closing
bracket, non quote before the quote), so the greedy run of a backtracking
or leftmost match never gives characters back and the deterministic scan
computes exactly the regex match.  The pattern is unanchored, so the
search tries every start position from the left, as Regex::captures
does. -/

/-- Greedy run of one or more characters satisfying p, returning the run
and the rest; none when the first character already fails. -/
def takeClass1 (p : Char → Bool) (s : List Char) : Option (List Char × List Char) :=
  let run := s.takeWhile p
  if run.isEmpty then none else some (run, s.drop run.length)

def expectChar (c : Char) (s : List Char) : Option (List Char) :=
  match s with
  | c2 :: rest => if c2 = c then some rest else none
  | [] => none

def expectToken (w : List Char) (s : List Char) : Option (List Char) :=
  match w, s with
  | [], rest => some rest
  | c :: wr, c2 :: sr => if c2 = c then expectToken wr sr else none
  | _ :: _, [] => none

/-- The method alternation of the default pattern, tried left to right as
a regex alternation is. -/
def httpMethods : List (List Char) :=
  [("GET").data, ("POST").data, ("PUT").data, ("DELETE").data,
   ("PATCH").data, ("OPTIONS").data, ("HEAD").data]

def tryMethods : List (List Char) → List Char → Option (List Char)
  | [], _ => none
  | m :: ms, s =>
    match expectToken m s with
    | some rest => some rest
    | none => tryMethods ms s

/-- Status group of the default pattern: exactly three ASCII digits, the
rest of the line unconstrained (the pattern ends at the status group). -/
def matchStatus (s : List Char) : Option (List Char) :=
  match s with
  | d1 :: d2 :: d3 :: _ =>
    if d1.isDigit && d2.isDigit && d3.isDigit then some [d1, d2, d3] else none
  | _ => none

/-- Tail of the default pattern after the bracketed time group: a space, a
quote, the method alternation, a space, the url group, the unquoted rest
of the request, the closing quote, a space and the status group.  Returns
the url and status texts. -/
def matchRequestAndStatus (s : List Char) : Option (List Char × List Char) :=
  match expectChar ' ' s with
  | none => none
  | some s1 =>
  match expectChar '"' s1 with
  | none => none
  | some s2 =>
  match tryMethods httpMethods s2 with
  | none => none
  | some s3 =>
  match expectChar ' ' s3 with
  | none => none
  | some s4 =>
  match takeClass1 (fun c => c != '"' && c != ' ') s4 with
  | none => none
  | some prU =>
  match expectChar '"' (prU.2.dropWhile (fun c => c != '"')) with
  | none => none
  | some s5 =>
  match expectChar ' ' s5 with
  | none => none
  | some s6 =>
  match matchStatus s6 with
  | none => none
  | some st => some (prU.1, st)

/-- The default pattern applied at the start of s. -/
def matchDefaultAt (s : List Char) : Option Caps :=
  match takeClass1 (fun c => !(isWsChar c)) s with
  | none => none
  | some pr1 =>
  match expectChar ' ' pr1.2 with
  | none => none
  | some s1 =>
  match takeClass1 (fun c => c != ' ') s1 with
  | none => none
  | some pr2 =>
  match expectChar ' ' pr2.2 with
  | none => none
  | some s2 =>
  match takeClass1 (fun c => c != ' ') s2 with
  | none => none
  | some pr3 =>
  match expectChar ' ' pr3.2 with
  | none => none
  | some s3 =>
  match expectChar '[' s3 with
  | none => none
  | some s4 =>
  match takeClass1 (fun c => c != ']') s4 with
  | none => none
  | some prT =>
  match expectChar ']' prT.2 with
  | none => none
  | some s5 =>
  match matchRequestAndStatus s5 with
  | none => none
  | some us =>
    some { ip := some (String.mk pr1.1)
           url := some (String.mk us.1)
           status := some (String.mk us.2)
           time := some (String.mk prT.1) }

/-- Unanchored leftmost search: try the pattern at every start position
from the left, as Regex::captures does. -/
def searchDefault : List Char → Option Caps
  | [] => none
  | c :: rest =>
    match matchDefaultAt (c :: rest) with
    | some caps => some caps
    | none => searchDefault rest

/-- Captures function of the default pattern compiled by build_regex. -/
def defaultCaptures (line : String) : Option Caps :=
  searchDefault line.data

/-- The parser main.rs builds when neither a pattern nor a date format is
supplied: the default pattern with the default date format. -/
def defaultParser : RegexParser :=
  { captures := defaultCaptures, date_fmt := apacheFmt }

/-! ## Batch loader

load_entries in main.rs opens each path in order (an unopenable path is
skipped), iterates reader.lines().flatten() (a line that is not valid
UTF-8 yields an Err that flatten drops, and iteration continues with the
following lines), parses each decoded line, filters by window and pushes
survivors.  A file is modelled as the list of its physical lines, each
either some decoded text or none for a line whose bytes are not valid
UTF-8; an unopenable path is modelled as none. -/

def lineStep (p : RegexParser) (since untl : Option Int)
    (acc : List LogEntry) (ol : Option String) : List LogEntry :=
  match ol with
  | none => acc
  | some l =>
    match p.parse l with
    | none => acc
    | some e => if within_window e since untl then acc ++ [e] else acc

/-- Body of the outer loop of load_entries: an unopenable path leaves the
accumulator unchanged, a readable one runs the line loop over it. -/
def pathStep (p : RegexParser) (since untl : Option Int)
    (acc : List LogEntry) (f : Option (List (Option String))) : List LogEntry :=
  match f with
  | none => acc
  | some lines => lines.foldl (lineStep p since untl) acc

/-- Mirror of load_entries in main.rs, as the imperative push loop. -/
def load_entries (paths : List (Option (List (Option String))))
    (p : RegexParser) (since untl : Option Int) : List LogEntry :=
  paths.foldl (pathStep p since untl) []

/-- Records one readable file contributes, in line order: decoded lines
that match the pattern and pass the window.  This is the specification
style description the loader is proved to refine. -/
def fileRecords (p : RegexParser) (since untl : Option Int)
    (lines : List (Option String)) : List LogEntry :=
  lines.filterMap (fun ol => ol.bind (fun l =>
    (p.parse l).bind (fun e => if within_window e since untl then some e else none)))

/-- Specification style description of the whole loader: per file record
lists concatenated in file order, an unopenable file contributing
nothing. -/
def loadSpec (paths : List (Option (List (Option String))))
    (p : RegexParser) (since untl : Option Int) : List LogEntry :=
  (paths.map (fun f =>
    match f with
    | none => []
    | some lines => fileRecords p since untl lines)).flatten

/-! ## Aggregator -/

/-- Mirror of struct Summary.  The HashMap from status to count is
modelled as an association list with unique keys; the program only ever
reads it by key or iterates its entries, so the model keeps insertion
order, which the claims never rely on. -/
structure Summary where
  total : Nat
  by_status : List (Nat × Nat)
deriving DecidableEq, Repr

/-- The HashMap update by_status.entry(s).or_insert(0) += 1: bump the
existing entry for the key or add the key with count one. -/
def updateIncr : List (Nat × Nat) → Nat → List (Nat × Nat)
  | [], s => [(s, 1)]
  | (k, v) :: rest, s =>
    if k = s then (k, v + 1) :: rest else (k, v) :: updateIncr rest s

def histStep (m : List (Nat × Nat)) (e : LogEntry) : List (Nat × Nat) :=
  match e.status with
  | some s => updateIncr m s
  | none => m

/-- Mirror of summarize in main.rs: total is the number of entries, and
each entry with a status bumps that status count. -/
def summarize (entries : List LogEntry) : Summary :=
  { total := entries.length, by_status := entries.foldl histStep [] }

/-- Lookup of a status key in the modelled HashMap. -/
def hmLookup : List (Nat × Nat) → Nat → Option Nat
  | [], _ => none
  | (k, v) :: rest, s => if k = s then some v else hmLookup rest s

/-- Sum of all counts in the modelled HashMap. -/
def sumValues (m : List (Nat × Nat)) : Nat :=
  (m.map Prod.snd).sum

/-- Number of entries whose status equals s. -/
def statusCount (entries : List LogEntry) (s : Nat) : Nat :=
  (entries.filter (fun e => e.status == some s)).length

/-- Number of entries carrying any status. -/
def someStatusCount (entries : List LogEntry) : Nat :=
  (entries.filter (fun e => e.status.isSome)).length

/-! ## Live tail engine

follow_file in main.rs seeks to the saved position, wraps the file in a
buffered reader and calls read_line until it returns zero bytes.
read_line reads up to and including the next newline, or up to end of
file when no newline follows, so a trailing unterminated fragment IS
returned and parsed (after trim_end_matches removes trailing newlines).
After the loop the position is set to the current stream position, which
is then end of file.  One poll is modelled as a function of the file
content and the cursor. -/

/-- Split into the chunks successive read_line calls return: each chunk
ends with a newline except possibly the last. -/
def splitChunks (s : List Char) : List (List Char) :=
  s.foldr (fun c acc =>
    if c = '\n' then ['\n'] :: acc
    else match acc with
      | [] => [[c]]
      | h :: t => (c :: h) :: t) []

/-- buf.trim_end_matches removes every trailing newline character. -/
def trimNl (l : List Char) : List Char :=
  (l.reverse.dropWhile (fun c => c == '\n')).reverse

/-- One iteration of the poll loop of follow_file: read every chunk from
the cursor to end of file, parse and filter each, and move the cursor to
the stream position after the reads, i.e. end of file. -/
def pollOnce (p : RegexParser) (since untl : Option Int)
    (content : List Char) (pos : Nat) : List LogEntry × Nat :=
  let suffix := content.drop pos
  let recs := (splitChunks suffix).filterMap (fun chunk =>
    match p.parse (String.mk (trimNl chunk)) with
    | some e => if within_window e since untl then some e else none
    | none => none)
  (recs, pos + suffix.length)

/-! ## Observation store

The store is Arc<Mutex<Vec<LogEntry>>>: every producer appends under the
mutex (state.lock().unwrap().push(entry)) and the serving route clones
the vector under the mutex (state.lock().unwrap().clone()).  The mutex
serialises these critical sections, so a run of the store is a sequence
of atomic operations applied in some interleaving order; the model is
that sequence. -/

inductive StoreOp where
  | append (e : LogEntry)
  | snap
deriving DecidableEq, Repr

/-- Effect of one serialised critical section on the store contents: a
push appends one entry, taking a snapshot leaves the contents
unchanged. -/
def applyOp (st : List LogEntry) (op : StoreOp) : List LogEntry :=
  match op with
  | .append e => st ++ [e]
  | .snap => st

/-- Store contents after a trace of serialised operations. -/
def execOps (t : List StoreOp) (st : List LogEntry) : List LogEntry :=
  t.foldl applyOp st

/-- The entries appended during a trace, in serialisation order. -/
def appendsOf (t : List StoreOp) : List LogEntry :=
  t.filterMap (fun op =>
    match op with
    | .append e => some e
    | .snap => none)

/-! ## Concrete data used by the scenario claims -/

def l200 : String :=
  "1.1.1.1 - - [10/Oct/2023:10:00:00 +0000] \"GET /a HTTP/1.1\" 200"

def l404 : String :=
  "2.2.2.2 - - [10/Oct/2023:10:00:01 +0000] \"GET /b HTTP/1.1\" 404"

def garbageLine : String :=
  "garbage"

def febLine : String :=
  "3.3.3.3 - - [01/Feb/2024:00:00:00 +0000] \"GET /c HTTP/1.1\" 200"

def noTimeLine : String :=
  "4.4.4.4 - - [notadate] \"GET /d HTTP/1.1\" 200"

/-- File content after the writer of the tail scenario appended one
complete line and then a second line with no trailing newline yet. -/
def tailContent : List Char :=
  (l200 ++ "\n" ++ l404).data

def sinceStr : String := "2024-01-01 00:00"

def untilStr : String := "2024-01-31 23:59"

/-- An entry with status 200 and no other fields. -/
def entry200 : LogEntry :=
  { raw := "", ip := none, url := none, status := some 200, time := none }

/-- A captures result whose status text is not numeric and whose time
text does not parse under the default date format. -/
def capsBad : Caps :=
  { ip := some ("9.9.9.9"), url := some ("/p"), status := some ("abc"),
    time := some ("notatime") }

/-- A parser whose pattern matches exactly the line "x", with the bad
captures above: used to exhibit the partial match behaviour. -/
def parserBad : RegexParser :=
  { captures := fun l => if l = "x" then some capsBad else none
    date_fmt := apacheFmt }

/-! ## Helper lemmas -/

/-- Pushing survivors of one file onto an accumulator appends exactly the
record list of that file. -/
theorem foldl_lineStep_eq (p : RegexParser) (lo hi : Option Int) :
    ∀ (lines : List (Option String)) (acc : List LogEntry),
      lines.foldl (lineStep p lo hi) acc = acc ++ fileRecords p lo hi lines := by
  intro lines
  induction lines with
  | nil => intro acc; simp [fileRecords]
  | cons ol rest ih =>
    intro acc
    cases ol with
    | none => simp [lineStep, fileRecords, ih]
    | some l =>
      cases hp : p.parse l with
      | none => simp [lineStep, fileRecords, hp, ih]
      | some e =>
        cases hw : within_window e lo hi with
        | false => simp [lineStep, fileRecords, hp, hw, ih]
        | true => simp [lineStep, fileRecords, hp, hw, ih]

/-- The imperative loader loop equals the per file concatenation. -/
theorem load_entries_eq_loadSpec (p : RegexParser) (lo hi : Option Int) :
    ∀ paths, load_entries paths p lo hi = loadSpec paths p lo hi := by
  have aux : ∀ (paths : List (Option (List (Option String)))) (acc : List LogEntry),
      paths.foldl (pathStep p lo hi) acc = acc ++ loadSpec paths p lo hi := by
    intro paths
    induction paths with
    | nil => intro acc; simp [loadSpec]
    | cons f rest ih =>
      intro acc
      rw [List.foldl_cons]
      cases f with
      | none =>
        have h1 : pathStep p lo hi acc none = acc := rfl
        rw [h1, ih]
        simp [loadSpec]
      | some lines =>
        have h1 : pathStep p lo hi acc (some lines) = lines.foldl (lineStep p lo hi) acc := rfl
        rw [h1, foldl_lineStep_eq, ih]
        simp [loadSpec, List.append_assoc]
  intro paths
  simpa using aux paths []

/-- A record produced by a file arises from one of its decoded lines. -/
theorem parse_some_raw (p : RegexParser) (l : String) (e : LogEntry)
    (h : p.parse l = some e) : e.raw = l := by
  cases hc : p.captures l with
  | none => simp [RegexParser.parse, hc] at h
  | some c =>
    simp [RegexParser.parse, hc] at h
    rw [← h]

theorem mem_fileRecords (p : RegexParser) (lo hi : Option Int)
    (lines : List (Option String)) (e : LogEntry)
    (he : e ∈ fileRecords p lo hi lines) :
    ∃ l, some l ∈ lines ∧ p.parse l = some e ∧ e.raw = l := by
  simp only [fileRecords, List.mem_filterMap] at he
  obtain ⟨ol, hmem, heq⟩ := he
  cases ol with
  | none => simp at heq
  | some l =>
    simp only [Option.bind_eq_some] at heq
    obtain ⟨l2, hl2, heq2⟩ := heq
    obtain ⟨e2, he2, heq3⟩ := heq2
    cases hl2
    cases hw : within_window e2 lo hi with
    | false => rw [hw] at heq3; simp at heq3
    | true =>
      rw [hw] at heq3
      simp at heq3
      subst heq3
      exact ⟨l, hmem, he2, parse_some_raw p l e2 he2⟩

/-- Bumping a key makes its count the previous count plus one. -/
theorem hmLookup_updateIncr_self :
    ∀ (m : List (Nat × Nat)) (s : Nat),
      hmLookup (updateIncr m s) s = some ((hmLookup m s).getD 0 + 1) := by
  intro m s
  induction m with
  | nil => simp [updateIncr, hmLookup]
  | cons kv rest ih =>
    obtain ⟨k, v⟩ := kv
    by_cases h : k = s
    · subst h; simp [updateIncr, hmLookup]
    · simp [updateIncr, hmLookup, h, ih]

/-- Bumping a key leaves the other counts unchanged. -/
theorem hmLookup_updateIncr_ne (k s : Nat) (hk : k ≠ s) :
    ∀ (m : List (Nat × Nat)), hmLookup (updateIncr m k) s = hmLookup m s := by
  intro m
  induction m with
  | nil => simp [updateIncr, hmLookup, hk]
  | cons kv rest ih =>
    obtain ⟨k2, v⟩ := kv
    by_cases h2 : k2 = k
    · subst h2; simp [updateIncr, hmLookup, hk]
    · simp [updateIncr, hmLookup, h2, ih]

theorem statusCount_cons (e : LogEntry) (rest : List LogEntry) (s : Nat) :
    statusCount (e :: rest) s =
      (if e.status = some s then 1 else 0) + statusCount rest s := by
  by_cases h : e.status = some s
  · simp [statusCount, h, Nat.add_comm]
  · simp [statusCount, h]

/-- The histogram fold counts, per key, the entries carrying that
status. -/
theorem hist_lookup (s : Nat) :
    ∀ (es : List LogEntry) (m : List (Nat × Nat)),
      hmLookup (es.foldl histStep m) s =
        match hmLookup m s with
        | none => if statusCount es s = 0 then none else some (statusCount es s)
        | some v => some (v + statusCount es s) := by
  intro es
  induction es with
  | nil =>
    intro m
    cases h : hmLookup m s <;> simp [statusCount, h]
  | cons e rest ih =>
    intro m
    rw [List.foldl_cons]
    cases he : e.status with
    | none =>
      have hm : histStep m e = m := by simp [histStep, he]
      have hc : statusCount (e :: rest) s = statusCount rest s := by
        simp [statusCount_cons, he]
      rw [hm, ih, hc]
    | some k =>
      by_cases hk : k = s
      · subst hk
        have hm : histStep m e = updateIncr m k := by simp [histStep, he]
        have hc : statusCount (e :: rest) k = statusCount rest k + 1 := by
          simp [statusCount_cons, he, Nat.add_comm]
        rw [hm, ih, hmLookup_updateIncr_self, hc]
        cases h : hmLookup m k with
        | none => simp; omega
        | some v => simp; omega
      · have hm : histStep m e = updateIncr m k := by simp [histStep, he]
        have hc : statusCount (e :: rest) s = statusCount rest s := by
          have : e.status ≠ some s := by simp [he, hk]
          simp [statusCount_cons, this]
        rw [hm, ih, hmLookup_updateIncr_ne k s hk, hc]

theorem sumValues_cons (k v : Nat) (m : List (Nat × Nat)) :
    sumValues ((k, v) :: m) = v + sumValues m := by
  simp [sumValues]

theorem sumValues_updateIncr :
    ∀ (m : List (Nat × Nat)) (s : Nat), sumValues (updateIncr m s) = sumValues m + 1 := by
  intro m s
  induction m with
  | nil => simp [updateIncr, sumValues]
  | cons kv rest ih =>
    obtain ⟨k, v⟩ := kv
    by_cases h : k = s
    · subst h
      have h1 : updateIncr ((k, v) :: rest) k = (k, v + 1) :: rest := by
        simp [updateIncr]
      rw [h1, sumValues_cons, sumValues_cons]
      omega
    · have h1 : updateIncr ((k, v) :: rest) s = (k, v) :: updateIncr rest s := by
        simp [updateIncr, h]
      rw [h1, sumValues_cons, sumValues_cons, ih]
      omega

theorem someStatusCount_cons (e : LogEntry) (rest : List LogEntry) :
    someStatusCount (e :: rest) =
      (if e.status.isSome then 1 else 0) + someStatusCount rest := by
  by_cases h : e.status.isSome
  · simp [someStatusCount, h, Nat.add_comm]
  · simp [someStatusCount, h]

/-- The sum of all histogram counts is the number of entries carrying a
status. -/
theorem sumValues_hist :
    ∀ (es : List LogEntry) (m : List (Nat × Nat)),
      sumValues (es.foldl histStep m) = sumValues m + someStatusCount es := by
  intro es
  induction es with
  | nil => intro m; simp [someStatusCount]
  | cons e rest ih =>
    intro m
    rw [List.foldl_cons]
    cases he : e.status with
    | none =>
      have hm : histStep m e = m := by simp [histStep, he]
      have hc : someStatusCount (e :: rest) = someStatusCount rest := by
        simp [someStatusCount_cons, he]
      rw [hm, ih, hc]
    | some k =>
      have hm : histStep m e = updateIncr m k := by simp [histStep, he]
      have hc : someStatusCount (e :: rest) = someStatusCount rest + 1 := by
        simp [someStatusCount_cons, he, Nat.add_comm]
      rw [hm, ih, sumValues_updateIncr, hc]
      omega

theorem someStatusCount_le (es : List LogEntry) : someStatusCount es ≤ es.length :=
  List.length_filter_le _ es

theorem someStatusCount_eq_length_iff :
    ∀ es : List LogEntry, someStatusCount es = es.length ↔ ∀ e ∈ es, e.status.isSome := by
  intro es
  induction es with
  | nil => simp [someStatusCount]
  | cons e rest ih =>
    have hle := someStatusCount_le rest
    cases h : e.status.isSome with
    | true =>
      have hcons : someStatusCount (e :: rest) = 1 + someStatusCount rest := by
        rw [someStatusCount_cons, h]
        simp
      rw [hcons]
      constructor
      · intro hlen e2 he2
        cases List.mem_cons.mp he2 with
        | inl heq => rw [heq]; exact h
        | inr hmem =>
          have hr : someStatusCount rest = rest.length := by
            simp only [List.length_cons] at hlen
            omega
          exact (ih.mp hr) e2 hmem
      · intro hall
        have hr : someStatusCount rest = rest.length :=
          ih.mpr (fun e2 he2 => hall e2 (List.mem_cons_of_mem e he2))
        simp only [List.length_cons]
        omega
    | false =>
      have hcons : someStatusCount (e :: rest) = someStatusCount rest := by
        rw [someStatusCount_cons, h]
        simp
      constructor
      · intro hlen
        exfalso
        rw [hcons] at hlen
        simp only [List.length_cons] at hlen
        omega
      · intro hall
        exfalso
        have hcontra := hall e (List.mem_cons_self e rest)
        rw [h] at hcontra
        exact Bool.false_ne_true hcontra

/-- Replicating an entry with status 200 builds the one key histogram. -/
theorem hist_replicate_200 :
    ∀ (k n : Nat), (List.replicate k entry200).foldl histStep [(200, n)] = [(200, n + k)] := by
  intro k
  induction k with
  | zero => intro n; simp
  | succ k2 ih =>
    intro n
    rw [List.replicate_succ, List.foldl_cons]
    have : histStep [(200, n)] entry200 = [(200, n + 1)] := by
      simp [histStep, entry200, updateIncr]
    rw [this, ih]
    have harith : n + 1 + k2 = n + (k2 + 1) := by omega
    rw [harith]

/-- The store contents after a trace are the initial contents followed by
everything appended. -/
theorem execOps_eq_appends :
    ∀ (t : List StoreOp) (st : List LogEntry), execOps t st = st ++ appendsOf t := by
  intro t
  induction t with
  | nil => intro st; simp [execOps, appendsOf]
  | cons op rest ih =>
    intro st
    have h1 : execOps (op :: rest) st = execOps rest (applyOp st op) := rfl
    rw [h1, ih]
    cases op with
    | append e => simp [applyOp, appendsOf, List.append_assoc]
    | snap => simp [applyOp, appendsOf]

theorem appendsOf_append (a b : List StoreOp) :
    appendsOf (a ++ b) = appendsOf a ++ appendsOf b := by
  simp [appendsOf]

/-! ## Claims -/

/-- C2: within_window lets every record without a timestamp pass under any
bound combination; a record with timestamp t passes exactly when t is at
least a set lower bound and at most a set upper bound, both bounds
independently optional and both inclusive, so a record at t passes with
both bounds equal to t and fails with the lower bound t + 1. -/
theorem c2_time_window_filter :
    (∀ (raw : String) (ip url : Option String) (st : Option Nat) (lo hi : Option Int),
      within_window ⟨raw, ip, url, st, none⟩ lo hi = true) ∧
    (∀ (raw : String) (ip url : Option String) (st : Option Nat) (t : Int) (lo hi : Option Int),
      within_window ⟨raw, ip, url, st, some t⟩ lo hi = true ↔
        ((∀ l, lo = some l → l ≤ t) ∧ (∀ u, hi = some u → t ≤ u))) ∧
    (∀ (raw : String) (ip url : Option String) (st : Option Nat) (t : Int),
      within_window ⟨raw, ip, url, st, some t⟩ (some t) (some t) = true) ∧
    (∀ (raw : String) (ip url : Option String) (st : Option Nat) (t : Int),
      within_window ⟨raw, ip, url, st, some t⟩ (some (t + 1)) none = false) := by
  refine ⟨fun _ _ _ _ _ _ => rfl, ?_, ?_, ?_⟩
  · intro raw ip url st t lo hi
    cases lo <;> cases hi <;> simp [within_window]
  · intro raw ip url st t
    simp [within_window]
  · intro raw ip url st t
    simp [within_window]

/-- C4: the extraction engine yields no match exactly when the pattern
fails to match the line, and such a line never appears as a Record of a
batch load; a partial match still yields a Record with the failed field
absent and the raw field holding the whole source line, exhibited on a
parser whose status capture is non numeric and whose time capture does
not parse. -/
theorem c4_extract_no_match_vs_partial_match :
    (∀ (p : RegexParser) (line : String),
      p.parse line = none ↔ p.captures line = none) ∧
    (∀ (p : RegexParser) (line : String) (c : Caps),
      p.captures line = some c →
        p.parse line = some { raw := line, ip := c.ip, url := c.url,
                              status := c.status.bind parseU16,
                              time := c.time.bind (fun s => parse_time s p.date_fmt) }) ∧
    (∀ (p : RegexParser) (lo hi : Option Int) (lines : List (Option String)) (e : LogEntry),
      e ∈ fileRecords p lo hi lines →
        ∃ l, some l ∈ lines ∧ p.parse l = some e ∧ e.raw = l) ∧
    parserBad.parse ("x") = some { raw := "x", ip := some ("9.9.9.9"), url := some ("/p"),
                                   status := none, time := none } ∧
    parserBad.parse ("y") = none := by
  refine ⟨?_, ?_, ?_, by decide, by decide⟩
  · intro p line
    simp [RegexParser.parse]
  · intro p line c h
    simp [RegexParser.parse, h]
  · intro p lo hi lines e he
    exact mem_fileRecords p lo hi lines e he

/-- C5: the batch loader returns exactly the records surviving extraction
and the window filter, concatenated in file order and line order (the
imperative loop refines the per file specification), and an unopenable
path among the inputs is skipped without affecting the records of the
remaining paths, shown in general and on a concrete three path set with a
missing middle path. -/
theorem c5_batch_loader_order_and_missing_path :
    (∀ (paths : List (Option (List (Option String)))) (p : RegexParser) (lo hi : Option Int),
      load_entries paths p lo hi = loadSpec paths p lo hi) ∧
    (∀ (a b : List (Option (List (Option String)))) (p : RegexParser) (lo hi : Option Int),
      load_entries (a ++ none :: b) p lo hi = load_entries (a ++ b) p lo hi) ∧
    load_entries [some [some l200], none, some [some l404]] defaultParser none none =
      load_entries [some [some l200], some [some l404]] defaultParser none none ∧
    (load_entries [some [some l200], none, some [some l404]] defaultParser none none).map
        LogEntry.raw = [l200, l404] := by
  refine ⟨fun paths p lo hi => load_entries_eq_loadSpec p lo hi paths, ?_,
          by decide, by decide⟩
  intro a b p lo hi
  rw [load_entries_eq_loadSpec, load_entries_eq_loadSpec]
  simp [loadSpec]

/-- C6: summarize returns the sequence length as total and a histogram
whose count at each status key is the number of records carrying that
status, keys with no carrier being absent; in particular the empty
sequence gives total zero with an empty histogram and k records all with
status 200 give total k with the single entry 200 maps to k. -/
theorem c6_summarize_total_and_histogram :
    (∀ es : List LogEntry, (summarize es).total = es.length) ∧
    (∀ (es : List LogEntry) (s : Nat),
      hmLookup (summarize es).by_status s =
        (if statusCount es s = 0 then none else some (statusCount es s))) ∧
    summarize [] = { total := 0, by_status := [] } ∧
    (∀ k : Nat, summarize (List.replicate (k + 1) entry200) =
      { total := k + 1, by_status := [(200, k + 1)] }) := by
  refine ⟨fun es => rfl, ?_, rfl, ?_⟩
  · intro es s
    have h := hist_lookup s es []
    simp only [hmLookup] at h
    simpa [summarize] using h
  · intro k
    have h1 : (List.replicate (k + 1) entry200).foldl histStep [] = [(200, k + 1)] := by
      rw [List.replicate_succ, List.foldl_cons]
      have h2 : histStep [] entry200 = [(200, 1)] := rfl
      rw [h2, hist_replicate_200 k 1]
      have h3 : 1 + k = k + 1 := by omega
      rw [h3]
    simp [summarize, h1]

/-- C7: under the default pattern and the default date format, a batch
run over the 200 line, the 404 line and the non matching garbage line
produces total 2 with histogram counts one at key 200 and one at key 404
and no further key, and the garbage line produces no Record at all. -/
theorem c7_default_pipeline_scenario :
    defaultParser.parse garbageLine = none ∧
    load_entries [some [some garbageLine]] defaultParser none none = [] ∧
    (summarize (load_entries [some [some l200, some l404, some garbageLine]]
        defaultParser none none)).total = 2 ∧
    hmLookup (summarize (load_entries [some [some l200, some l404, some garbageLine]]
        defaultParser none none)).by_status 200 = some 1 ∧
    hmLookup (summarize (load_entries [some [some l200, some l404, some garbageLine]]
        defaultParser none none)).by_status 404 = some 1 ∧
    (summarize (load_entries [some [some l200, some l404, some garbageLine]]
        defaultParser none none)).by_status.length = 2 := by
  refine ⟨by decide, by decide, by decide,
          by decide, by decide, by decide⟩

/-- C8: under the mutex the store operations serialise into a trace of
atomic appends and snapshots; no appended record is ever lost (the final
contents are exactly the appended records in serialisation order), and
the contents after any earlier point of the trace are a prefix of the
contents after any later point, so snapshots grow monotonically. -/
theorem c8_store_no_lost_append_monotone :
    (∀ t : List StoreOp, execOps t [] = appendsOf t) ∧
    (∀ (t : List StoreOp) (k j : Nat),
      execOps (t.take k) [] <+: execOps (t.take (k + j)) []) := by
  constructor
  · intro t
    rw [execOps_eq_appends]
    simp
  · intro t k j
    refine ⟨appendsOf ((t.drop k).take j), ?_⟩
    rw [execOps_eq_appends, execOps_eq_appends, List.nil_append, List.nil_append,
        List.take_add, appendsOf_append]

/-- C9: the histogram counts of summarize sum to the number of records
whose status is present, hence never exceed the reported total, with
equality exactly when every record carries a status. -/
theorem c9_histogram_sum_vs_total :
    (∀ es : List LogEntry, sumValues (summarize es).by_status = someStatusCount es) ∧
    (∀ es : List LogEntry, sumValues (summarize es).by_status ≤ (summarize es).total) ∧
    (∀ es : List LogEntry,
      sumValues (summarize es).by_status = (summarize es).total ↔
        ∀ e ∈ es, e.status.isSome) := by
  have hsum : ∀ es : List LogEntry, sumValues (summarize es).by_status = someStatusCount es := by
    intro es
    have h := sumValues_hist es []
    simpa [summarize, sumValues] using h
  refine ⟨hsum, ?_, ?_⟩
  · intro es
    rw [hsum]
    exact someStatusCount_le es
  · intro es
    rw [hsum]
    exact someStatusCount_eq_length_iff es

/-- C10: a line whose bytes are not valid UTF-8 is dropped by the batch
loader without reaching the extraction engine and without aborting the
following lines of the same file or the other files: removing it from the
input changes nothing, in general and on a concrete file whose middle
line is invalid. -/
theorem c10_invalid_utf8_line_skipped :
    (∀ (p : RegexParser) (lo hi : Option Int) (a b : List (Option String)),
      fileRecords p lo hi (a ++ none :: b) = fileRecords p lo hi (a ++ b)) ∧
    (∀ (p : RegexParser) (lo hi : Option Int)
        (pre post : List (Option (List (Option String)))) (a b : List (Option String)),
      load_entries (pre ++ some (a ++ none :: b) :: post) p lo hi =
        load_entries (pre ++ some (a ++ b) :: post) p lo hi) ∧
    (load_entries [some [some l200, none, some l404]] defaultParser none none).map
        LogEntry.raw = [l200, l404] := by
  have hfile : ∀ (p : RegexParser) (lo hi : Option Int) (a b : List (Option String)),
      fileRecords p lo hi (a ++ none :: b) = fileRecords p lo hi (a ++ b) := by
    intro p lo hi a b
    simp [fileRecords]
  refine ⟨hfile, ?_, by decide⟩
  intro p lo hi pre post a b
  rw [load_entries_eq_loadSpec, load_entries_eq_loadSpec]
  simp [loadSpec, hfile]

/-- C1: one poll of the tail engine over a file holding one complete line
followed by a second line with no trailing newline consumes BOTH lines
(the cursor jumps to end of file and the unterminated fragment is parsed
as if complete), producing two Records instead of the one the
specification requires; after the newline is appended, the further poll
reads only the leftover newline and produces nothing, so the second
Record never arrives on the later poll either.  This exhibits the cursor
advancing past content that is not fully terminated. -/
theorem c1_poll_consumes_unterminated_fragment :
    (pollOnce defaultParser none none tailContent 0).1.map LogEntry.raw = [l200, l404] ∧
    (pollOnce defaultParser none none tailContent 0).2 = tailContent.length ∧
    (pollOnce defaultParser none none (tailContent ++ ['\n']) tailContent.length).1 = [] := by
  refine ⟨by decide, by decide, by decide⟩

/-- C3: the bound strings since = 2024-01-01 00:00 and until =
2024-01-31 23:59 in the fixed layout are both unparsable for the code
(DateTime parse_from_str for a DateTime with FixedOffset needs a UTC
offset, and the layout has no offset item), so both bounds end up unset
and a record timestamped 2024-02-01 is INCLUDED in the batch result
rather than excluded; a record with no timestamp is included as the claim
says. -/
theorem c3_bounds_never_parse_feb_record_included :
    chronoParseFromStr fmtYmdHM sinceStr = none ∧
    chronoParseFromStr fmtYmdHM untilStr = none ∧
    defaultParser.parse febLine = some { raw := febLine, ip := some ("3.3.3.3"),
                                         url := some ("/c"), status := some 200,
                                         time := some 1706745600 } ∧
    (load_entries [some [some febLine, some noTimeLine]] defaultParser
        (chronoParseFromStr fmtYmdHM sinceStr)
        (chronoParseFromStr fmtYmdHM untilStr)).map LogEntry.raw = [febLine, noTimeLine] := by
  refine ⟨by decide, by decide, by decide, by decide⟩

end Loglyzer
